import Mathlib

/-!
Verification development for the rlrd repository.

Shallow embedding of:
- `iterate_episodes` and `run_wandb` from `src/agents/__init__.py`,
- `Agent.act` / `Agent.train` from `src/agents/rrtac.py`,
- `DelayedMlpModule` from `src/rlrd/sac_models_rd.py`.

Python strings are modelled as `List Char`, Python ints as `Int`/`Nat`,
Python floats occurring in the cadence arithmetic as `ℚ`.  Side effects
(file system writes, generator yields, train invocations) are made explicit
through event traces and returned counters.
-/

namespace Rlrd

/-- Model of Python `str.endswith(suffix)`: the last `suffix.length` characters
of `p` equal `suffix`. -/
def strEndsWith (p suffix : List Char) : Bool :=
  decide (p.drop (p.length - suffix.length) = suffix)

/-- The suffix appended by `tempfile.mktemp("_remove_on_exit")` in
`iterate_episodes` (src/agents/__init__.py line 30) and tested by the
`finally` clause (line 55). -/
def removeSuffix : List Char := "_remove_on_exit".toList

/-- Run State ("Training instance"): the object produced by `run_cls()` and
round-tripped through the checkpoint store.  `epoch` and `epochs` are the
counters read by the `while` guard on line 43 of src/agents/__init__.py;
`payload` abstracts the rest of the pickled state (agent, memory, env,
rounds, steps, RNG state). -/
structure RunState (σ : Type) where
  epoch : Nat
  epochs : Nat
  payload : σ
deriving DecidableEq

/-- Observable events of one execution of `iterate_episodes`
(src/agents/__init__.py lines 30-56).  `construct` is the `run_cls()` call,
`dump`/`load` are the checkpoint-store calls carrying the serialized Run
State, `runEpoch` records a `run_epoch()` invocation at a given epoch
counter, `yielded` a record handed to the generator's consumer, and
`removeFile` the `os.remove` in the `finally` clause. -/
inductive Ev (σ ρ : Type) where
  | construct : RunState σ → Ev σ ρ
  | dump : RunState σ → Ev σ ρ
  | load : RunState σ → Ev σ ρ
  | runEpoch : Nat → Ev σ ρ
  | yielded : ρ → Ev σ ρ
  | removeFile : Ev σ ρ
deriving DecidableEq

/-- Result of running the `while` loop of `iterate_episodes`: its event
trace, the records yielded, the in-memory `run_instance` at loop exit, the
checkpoint-file content at loop exit (`none` = no file), and whether the
loop finished without an exception. -/
structure LoopOut (σ ρ : Type) where
  trace : List (Ev σ ρ)
  yields : List ρ
  inst : RunState σ
  file : Option (RunState σ)
  ok : Bool
deriving DecidableEq

/-- Embedding of the `while run_instance.epoch < run_instance.epochs` loop
(src/agents/__init__.py lines 43-52).  One iteration: call `run_epoch`
(which mutates the instance to `s'` and returns a record, modelled by
`step s = some (r, s')`; `step s = none` models `run_epoch` raising), yield
the record, `dump` the mutated instance, delete it, and `load` it back from
the just-written checkpoint (the checkpoint store round-trips values, spec
section 6, so `load` returns `s'`).  `fuel` bounds the number of
iterations examined; `iterateEpisodes` instantiates it with
`epochs - epoch`, which is exact whenever `run_epoch` increments `epoch`
by one. -/
def epLoop {σ ρ : Type} (step : RunState σ → Option (ρ × RunState σ)) :
    Nat → RunState σ → Option (RunState σ) → LoopOut σ ρ
  | 0, s, f => ⟨[], [], s, f, true⟩
  | fuel + 1, s, f =>
    if s.epoch < s.epochs then
      match step s with
      | none => ⟨[Ev.runEpoch s.epoch], [], s, f, false⟩
      | some (r, s2) =>
        ⟨Ev.runEpoch s.epoch :: Ev.yielded r :: Ev.dump s2 :: Ev.load s2 ::
            (epLoop step fuel s2 (some s2)).trace,
         r :: (epLoop step fuel s2 (some s2)).yields,
         (epLoop step fuel s2 (some s2)).inst,
         (epLoop step fuel s2 (some s2)).file,
         (epLoop step fuel s2 (some s2)).ok⟩
    else ⟨[], [], s, f, true⟩

/-- Result of a full `iterate_episodes` call: event trace, yielded records,
checkpoint-file content when the loop exited (before the `finally`
clause), checkpoint-file content after the `finally` clause, and the
exception flag. -/
structure RunOut (σ ρ : Type) where
  trace : List (Ev σ ρ)
  yields : List ρ
  loopFile : Option (RunState σ)
  file : Option (RunState σ)
  ok : Bool
deriving DecidableEq

/-- Embedding of `iterate_episodes(run_cls, checkpoint_path)`
(src/agents/__init__.py lines 24-56).
`supplied` is the `checkpoint_path` argument (`none` = Python `None`), and
`tmp` the path returned by `tempfile.mktemp("_remove_on_exit")`, so
`supplied.getD tmp` is line 30's `checkpoint_path or tempfile.mktemp(...)`.
`file0` is the content of the file at that path (`none` ⟺ `not
exists(checkpoint_path)`): if absent, `run_cls()` builds `fresh` and it is
dumped immediately (lines 33-37); either way the instance is then loaded
from the checkpoint (line 42) and the loop runs.  The `finally` clause
(lines 54-56) removes the file iff the effective path ends with
`"_remove_on_exit"` and the file exists. -/
def iterateEpisodes {σ ρ : Type} (step : RunState σ → Option (ρ × RunState σ))
    (fresh : RunState σ) (supplied : Option (List Char)) (tmp : List Char)
    (file0 : Option (RunState σ)) : RunOut σ ρ :=
  let path := supplied.getD tmp
  let hd : List (Ev σ ρ) :=
    match file0 with
    | none => [Ev.construct fresh, Ev.dump fresh, Ev.load fresh]
    | some s => [Ev.load s]
  let s1 := match file0 with
    | none => fresh
    | some s => s
  let o := epLoop step (s1.epochs - s1.epoch) s1 (some s1)
  let doRemove := strEndsWith path removeSuffix && o.file.isSome
  { trace := hd ++ o.trace ++ (if doRemove then [Ev.removeFile] else [])
    yields := o.yields
    loopFile := o.file
    file := if doRemove then none else o.file
    ok := o.ok }

/-- Model of a fresh run of `iterate_episodes` (no checkpoint file at the
path) that is interrupted after its `k`-th checkpoint write: the consumer
has received `k` records and the process dies before epoch `k+1`
completes.  Returns the records the consumer received and the
checkpoint-file content left on disk (the `finally` clause of a killed
process does not run, and for an explicit path it would not delete the
file anyway). -/
def iterateStopAfter {σ ρ : Type} (step : RunState σ → Option (ρ × RunState σ))
    (fresh : RunState σ) (k : Nat) : List ρ × Option (RunState σ) :=
  let o : LoopOut σ ρ := epLoop step k fresh (some fresh)
  (o.yields, o.file)

/-- Deterministic-automaton runner over event traces: threads a control
state through the trace with transition function `δ`; `none` signals that
the trace violates the ordering discipline encoded by `δ`. -/
def dfaRun {σ ρ : Type} (δ : Nat → Ev σ ρ → Option Nat) :
    Nat → List (Ev σ ρ) → Option Nat
  | st, [] => some st
  | st, e :: tr =>
    match δ st e with
    | none => none
    | some st2 => dfaRun δ st2 tr

/-- Ordering discipline asserted by claim C3 for each epoch: after
`runEpoch` the next events must be `dump`, then `load`, and only then
`yielded`.  Events before the first `runEpoch` (construction, the initial
dump, loads) and the final `removeFile` are neutral. -/
def c3ClaimStep {σ ρ : Type} : Nat → Ev σ ρ → Option Nat
  | 0, Ev.construct _ => some 0
  | 0, Ev.dump _ => some 0
  | 0, Ev.load _ => some 0
  | 0, Ev.removeFile => some 0
  | 0, Ev.runEpoch _ => some 1
  | 1, Ev.dump _ => some 2
  | 2, Ev.load _ => some 3
  | 3, Ev.yielded _ => some 0
  | _, _ => none

/-- Trace acceptance for the per-epoch ordering claimed by C3. -/
def c3ClaimOk {σ ρ : Type} (tr : List (Ev σ ρ)) : Bool :=
  (dfaRun c3ClaimStep 0 tr).isSome

/-- Ordering discipline the code actually follows for each epoch: after
`runEpoch` the record is `yielded` first, then the state is `dump`ed and
`load`ed back.  A trace may end right after `runEpoch` (exception inside
`run_epoch`), and `removeFile` may follow. -/
def c3ActualStep {σ ρ : Type} : Nat → Ev σ ρ → Option Nat
  | 0, Ev.construct _ => some 0
  | 0, Ev.dump _ => some 0
  | 0, Ev.load _ => some 0
  | 0, Ev.removeFile => some 0
  | 0, Ev.runEpoch _ => some 1
  | 1, Ev.yielded _ => some 2
  | 1, Ev.removeFile => some 0
  | 2, Ev.dump _ => some 3
  | 3, Ev.load _ => some 0
  | _, _ => none

/-- Trace acceptance for the yield-then-persist-then-reload ordering. -/
def c3ActualOk {σ ρ : Type} (tr : List (Ev σ ρ)) : Bool :=
  (dfaRun c3ActualStep 0 tr).isSome

/-- Discipline for claim C6: a `runEpoch` event is legal only immediately
after a `load` event, i.e. every epoch executes on an instance just
deserialized from the checkpoint. -/
def runNeedsLoadStep {σ ρ : Type} : Nat → Ev σ ρ → Option Nat
  | _, Ev.load _ => some 1
  | 1, Ev.runEpoch _ => some 0
  | _, Ev.runEpoch _ => none
  | _, _ => some 0

/-- Each `dump s` event is immediately followed by a `load` of the very
same serialized state: the in-memory instance is reconstructed by
deserializing the just-written checkpoint. -/
def dumpsReloaded {σ ρ : Type} [DecidableEq σ] : List (Ev σ ρ) → Bool
  | [] => true
  | Ev.dump s :: tr =>
    (match tr with
     | Ev.load t :: _ => decide (s = t)
     | _ => false) && dumpsReloaded tr
  | _ :: tr => dumpsReloaded tr

/-- Recognizer for `construct` events (invocations of `run_cls()`). -/
def isConstructEv {σ ρ : Type} : Ev σ ρ → Bool
  | Ev.construct _ => true
  | _ => false

/-- Shape invariant of the traces produced by `epLoop`: a (possibly empty)
sequence of epoch blocks `runEpoch; yielded; dump s; load s`, optionally
ended by a lone `runEpoch` when `run_epoch` raised. -/
inductive LoopShape {σ ρ : Type} : List (Ev σ ρ) → Prop where
  | nil : LoopShape []
  | fail : ∀ k, LoopShape [Ev.runEpoch k]
  | block : ∀ (k : Nat) (r : ρ) (s : RunState σ) (tr : List (Ev σ ρ)),
      LoopShape tr →
      LoopShape (Ev.runEpoch k :: Ev.yielded r :: Ev.dump s :: Ev.load s :: tr)

/-! ## Agent.act of src/agents/rrtac.py (lines 37-46) -/

/-- Model of Python `int()` applied to a float/rational: truncation toward
zero. -/
def pyInt (q : ℚ) : Int :=
  if q < 0 then -⌊-q⌋ else ⌊q⌋

/-- Modelled from the spec: `TrajMemory.append` (agents/memory.py, not under
src/) appends one transition to a fixed-capacity ring buffer, so
`len(memory)` after an append is `min (n + 1) capacity` (spec section 3:
"ordered, fixed-capacity sequence ... oldest overwritten at capacity",
invariant `len(memory) <= capacity`). -/
def memAppendLen (n cap : Nat) : Nat :=
  min (n + 1) cap

/-- Mutable agent fields read and written by `Agent.act` in
src/agents/rrtac.py: the replay-memory length, its capacity, and the
hyper-parameters and counter appearing on lines 43-44.  `start_training`
and `total_updates` are Python ints, `training_steps` a Python float
(modelled as ℚ). -/
structure AgentSt where
  memLen : Nat
  memCapacity : Nat
  start_training : Int
  training_steps : ℚ
  total_updates : Int
deriving DecidableEq

/-- Line 43 of src/agents/rrtac.py:
`total_updates_target = (len(self.memory) - self.start_training) * self.training_steps`. -/
def totalUpdatesTarget (memLen : Nat) (start : Int) (steps : ℚ) : ℚ :=
  ((memLen : ℚ) - (start : ℚ)) * steps

/-- Embedding of `Agent.act(self, h, obs, r, done, info, train)`
(src/agents/rrtac.py lines 37-46).  `modelAct` abstracts the pure network
call `self.model.act` (rtac_models, not under src/); it consumes the
recurrent state and observation and returns the action and next recurrent
state.  With `train=True` the transition is appended to memory and the
loop `for self.total_updates in range(self.total_updates,
int(total_updates_target) + 1)` runs `self.train()` once per index,
appending one statistics record per call; the loop variable is left at the
last index when the range is non-empty.  Returns
`(action, h_next, stats, new agent state)` where `stats` has one entry per
`train()` invocation. -/
def act {H Obs Act : Type} (modelAct : H → Obs → Act × H) (a : AgentSt)
    (h : H) (obs : Obs) (train : Bool) : Act × H × List Unit × AgentSt :=
  let ah := modelAct h obs
  if train then
    let m := memAppendLen a.memLen a.memCapacity
    let hi : Int := pyInt (totalUpdatesTarget m a.start_training a.training_steps) + 1
    let cnt : Nat := (hi - a.total_updates).toNat
    let tu : Int := if a.total_updates < hi then hi - 1 else a.total_updates
    (ah.1, ah.2, List.replicate cnt (),
     { a with memLen := m, total_updates := tu })
  else
    (ah.1, ah.2, [], a)

/-- Number of `train()` invocations asserted by claim C1 for one
`act(train=True)` call: `floor(accrued target) - total_updates before the
call`, the target being computed from the memory length after the
append. -/
def claimedTrainCalls (a : AgentSt) : Int :=
  ⌊totalUpdatesTarget (memAppendLen a.memLen a.memCapacity)
      a.start_training a.training_steps⌋ - a.total_updates

/-! ## Agent.train of src/agents/rrtac.py (lines 48-100): parameter updates -/

/-- Observable parameter-update events of one `Agent.train()` call, in
program order (src/agents/rrtac.py lines 83-90). -/
inductive TrainEv where
  | zeroGrad
  | backward
  | optStep
  | emaModelTarget
  | emaOutputnormTarget
deriving DecidableEq

/-- Parameter vectors owned by the agent: the trainable model, the target
model, the output-normalization module and its target copy
(src/agents/rrtac.py lines 26-30). -/
structure NetSt where
  modelP : List ℚ
  targetP : List ℚ
  onP : List ℚ
  onTargetP : List ℚ
deriving DecidableEq

/-- Modelled from the spec: `exponential_moving_average(target_params,
params, factor)` (agents/nn.py, not under src/) moves each target
parameter toward the corresponding parameter by the fraction given by the
factor — the "slow-moving copy via exponential moving average" of spec
sections 3 and 4.2. -/
def ema (α : ℚ) (t m : List ℚ) : List ℚ :=
  List.zipWith (fun tp mp => tp + α * (mp - tp)) t m

/-- Embedding of the update phase of `Agent.train()` (src/agents/rrtac.py
lines 82-90).  `gradStep` abstracts the effect of
`optimizer.zero_grad(); loss_total.backward(); optimizer.step()` on the
trainable model parameters — the target model was wrapped in `no_grad` at
construction (line 27) and is not a leaf of the optimizer (line 32), so
the gradient step is a function of the trainable parameters only.
`onUpdate` abstracts the mutation of the output-normalization statistics
performed by `outputnorm.update` during the loss computation (line 68).
After the optimizer step, both target modules are moved by
`exponential_moving_average` with coefficient `target_update`
(lines 89-90).  Also returns the ordered list of update events. -/
def trainStep (gradStep : List ℚ → List ℚ) (onUpdate : List ℚ → List ℚ)
    (target_update : ℚ) (s : NetSt) : NetSt × List TrainEv :=
  let on1 := onUpdate s.onP
  let m1 := gradStep s.modelP
  let t1 := ema target_update s.targetP m1
  let ot1 := ema target_update s.onTargetP on1
  (⟨m1, t1, on1, ot1⟩,
   [TrainEv.zeroGrad, TrainEv.backward, TrainEv.optStep,
    TrainEv.emaModelTarget, TrainEv.emaOutputnormTarget])

/-! ## DelayedMlpModule of src/rlrd/sac_models_rd.py -/

/-- Configuration of a `DelayedMlpModule` as fixed by `__init__`
(src/rlrd/sac_models_rd.py lines 13-49): the observation width
`observation_space[0].shape[0]`, the action width
`observation_space[1][0].shape[0]`, the action-buffer length
`len(observation_space[1])`, and the four behaviour flags. -/
structure DmmCfg where
  obs_dim : Nat
  act_dim : Nat
  buf_size : Nat
  is_Q_network : Bool
  obs_delay : Bool
  act_delay : Bool
  tbmdp : Bool
deriving DecidableEq

/-- The `in_features` width of the `Linear` layer `self.lin` selected by
`DelayedMlpModule.__init__` (src/rlrd/sac_models_rd.py lines 51-68). -/
def linInFeatures (c : DmmCfg) : Nat :=
  if c.is_Q_network then
    if c.tbmdp then c.obs_dim + c.act_dim
    else if c.act_delay && c.obs_delay then
      c.obs_dim + (c.act_dim + 2) * c.buf_size + c.act_dim
    else if c.act_delay || c.obs_delay then
      c.obs_dim + (c.act_dim + 1) * c.buf_size + c.act_dim
    else c.obs_dim + c.act_dim * c.buf_size + c.act_dim
  else
    if c.tbmdp then c.obs_dim
    else if c.act_delay && c.obs_delay then
      c.obs_dim + (c.act_dim + 2) * c.buf_size
    else if c.act_delay || c.obs_delay then
      c.obs_dim + (c.act_dim + 1) * c.buf_size
    else c.obs_dim + c.act_dim * c.buf_size

/-- Model of `torch.zeros(batch, n).scatter_(1, d, 1.0)` for one sample:
writes a `1` at position `d` of an `n`-wide zero row.  `scatter_` raises
when the index is out of range, modelled by `none`. -/
def scatterOneHot (n d : Nat) : Option (List ℚ) :=
  if d < n then some ((List.range n).map fun j => if j = d then 1 else 0)
  else none

/-- Embedding of `DelayedMlpModule.forward(x)` (src/rlrd/sac_models_rd.py
lines 70-113) for one sample of the batch, up to (and including) the
shape check of `self.lin`: returns the feature vector handed to the
`Linear` layer, or `none` when a tensor operation raises — `torch.cat` of
an empty action buffer, an out-of-range `scatter_` index, or an input
width different from the layer's `in_features`.  `obs` is `x[0]`, `actBuf`
the tuple `x[1]`, `obsDel` and `actDel` the delay indices `x[2]` and
`x[3]`, and `action` the appended action `x[5]` read when
`is_Q_network`. -/
def dmmForward (c : DmmCfg) (obs : List ℚ) (actBuf : List (List ℚ))
    (obsDel actDel : Nat) (action : List ℚ) : Option (List ℚ) :=
  if c.tbmdp then
    let input := if c.is_Q_network then obs ++ action else obs
    if input.length = linInFeatures c then some input else none
  else
    match (if actBuf.isEmpty then none else some actBuf.flatten :
        Option (List ℚ)) with
    | none => none
    | some ab =>
      match (if c.obs_delay then scatterOneHot c.buf_size obsDel
             else some []) with
      | none => none
      | some oh =>
        match (if c.act_delay then scatterOneHot c.buf_size actDel
               else some []) with
        | none => none
        | some ah =>
          let input := obs ++ ab ++ oh ++ ah ++
            (if c.is_Q_network then action else [])
          if input.length = linInFeatures c then some input else none

/-! ## run_wandb of src/agents/__init__.py (lines 70-82) -/

/-- Embedding of line 76 of src/agents/__init__.py,
`config['seed'] = config['seed'] or randrange(1, 1000000)`: the seed value
recorded in the config passed to `wandb.init`.  A Python int is falsy
exactly when it is `0`, in which case the `or` evaluates its right operand
`draw`, the value returned by `randrange(1, 1000000)`. -/
def wandbSeed (seed draw : Int) : Int :=
  if seed = 0 then draw else seed

/-- Contract of `random.randrange(1, 1000000)`: a uniformly drawn integer
`x` with `1 ≤ x < 1000000`. -/
def randrangeSpec (lo hi x : Int) : Prop :=
  lo ≤ x ∧ x < hi

/-! ## Concrete instances used by witnesses and counterexamples -/

/-- Concrete deterministic `run_epoch`: increments the epoch counter,
keeps `epochs`, and reports the finished epoch index as its statistics
record. -/
def stepOk : RunState Unit → Option (Nat × RunState Unit) :=
  fun s => some (s.epoch, ⟨s.epoch + 1, s.epochs, ()⟩)

/-- Concrete recognizer for `removeFile` events. -/
def isRemoveEv {σ ρ : Type} : Ev σ ρ → Bool
  | Ev.removeFile => true
  | _ => false

/-! ## Lemmas about the checkpoint loop -/

theorem epLoop_zero {σ ρ : Type} (step : RunState σ → Option (ρ × RunState σ))
    (s : RunState σ) (f : Option (RunState σ)) :
    epLoop step 0 s f = ⟨[], [], s, f, true⟩ := rfl

theorem epLoop_succ_stop {σ ρ : Type} (step : RunState σ → Option (ρ × RunState σ))
    (n : Nat) (s : RunState σ) (f : Option (RunState σ)) (h : ¬ s.epoch < s.epochs) :
    epLoop step (n + 1) s f = ⟨[], [], s, f, true⟩ := by
  simp [epLoop, h]

theorem epLoop_succ_fail {σ ρ : Type} (step : RunState σ → Option (ρ × RunState σ))
    (n : Nat) (s : RunState σ) (f : Option (RunState σ)) (h : s.epoch < s.epochs)
    (hs : step s = none) :
    epLoop step (n + 1) s f = ⟨[Ev.runEpoch s.epoch], [], s, f, false⟩ := by
  simp [epLoop, h, hs]

theorem epLoop_succ_go {σ ρ : Type} (step : RunState σ → Option (ρ × RunState σ))
    (n : Nat) (s : RunState σ) (f : Option (RunState σ)) (r : ρ) (s2 : RunState σ)
    (h : s.epoch < s.epochs) (hs : step s = some (r, s2)) :
    epLoop step (n + 1) s f =
      ⟨Ev.runEpoch s.epoch :: Ev.yielded r :: Ev.dump s2 :: Ev.load s2 ::
          (epLoop step n s2 (some s2)).trace,
       r :: (epLoop step n s2 (some s2)).yields,
       (epLoop step n s2 (some s2)).inst,
       (epLoop step n s2 (some s2)).file,
       (epLoop step n s2 (some s2)).ok⟩ := by
  simp [epLoop, h, hs]

theorem epLoop_file_isSome {σ ρ : Type} (step : RunState σ → Option (ρ × RunState σ)) :
    ∀ (fuel : Nat) (s : RunState σ) (f : Option (RunState σ)), f.isSome = true →
      (epLoop step fuel s f).file.isSome = true := by
  intro fuel
  induction fuel with
  | zero => intro s f hf; simpa [epLoop_zero] using hf
  | succ n ih =>
    intro s f hf
    by_cases h : s.epoch < s.epochs
    · cases hs : step s with
      | none => simpa [epLoop_succ_fail step n s f h hs] using hf
      | some rs =>
        obtain ⟨r, s2⟩ := rs
        simpa [epLoop_succ_go step n s f r s2 h hs] using ih s2 (some s2) rfl
    · simpa [epLoop_succ_stop step n s f h] using hf

theorem epLoop_file_inst {σ ρ : Type} (step : RunState σ → Option (ρ × RunState σ))
    (hsome : ∀ s, step s ≠ none) :
    ∀ (fuel : Nat) (s : RunState σ),
      (epLoop step fuel s (some s)).file = some (epLoop step fuel s (some s)).inst := by
  intro fuel
  induction fuel with
  | zero => intro s; simp [epLoop_zero]
  | succ n ih =>
    intro s
    by_cases h : s.epoch < s.epochs
    · cases hs : step s with
      | none => exact absurd hs (hsome s)
      | some rs =>
        obtain ⟨r, s2⟩ := rs
        simpa [epLoop_succ_go step n s (some s) r s2 h hs] using ih s2
    · simp [epLoop_succ_stop step n s (some s) h]

theorem epLoop_exact {σ ρ : Type} (step : RunState σ → Option (ρ × RunState σ))
    (hsome : ∀ s, step s ≠ none)
    (hstep : ∀ s r s2, step s = some (r, s2) → s2.epoch = s.epoch + 1 ∧ s2.epochs = s.epochs) :
    ∀ (fuel : Nat) (s : RunState σ) (f : Option (RunState σ)),
      s.epoch + fuel ≤ s.epochs →
      (epLoop step fuel s f).yields.length = fuel
      ∧ (epLoop step fuel s f).inst.epoch = s.epoch + fuel
      ∧ (epLoop step fuel s f).inst.epochs = s.epochs
      ∧ (epLoop step fuel s f).ok = true := by
  intro fuel
  induction fuel with
  | zero => intro s f hle; simp [epLoop_zero]
  | succ n ih =>
    intro s f hle
    have h : s.epoch < s.epochs := by omega
    cases hs : step s with
    | none => exact absurd hs (hsome s)
    | some rs =>
      obtain ⟨r, s2⟩ := rs
      obtain ⟨h1, h2⟩ := hstep s r s2 hs
      have hle2 : s2.epoch + n ≤ s2.epochs := by omega
      obtain ⟨l1, l2, l3, l4⟩ := ih s2 (some s2) hle2
      refine ⟨?_, ?_, ?_, ?_⟩ <;>
        simp [epLoop_succ_go step n s f r s2 h hs, l1, l2, l3, l4] <;> omega

theorem epLoop_add {σ ρ : Type} (step : RunState σ → Option (ρ × RunState σ))
    (hsome : ∀ s, step s ≠ none) :
    ∀ (a b : Nat) (s : RunState σ) (f : Option (RunState σ)),
      epLoop step (a + b) s f =
        ⟨(epLoop step a s f).trace
           ++ (epLoop step b (epLoop step a s f).inst (epLoop step a s f).file).trace,
         (epLoop step a s f).yields
           ++ (epLoop step b (epLoop step a s f).inst (epLoop step a s f).file).yields,
         (epLoop step b (epLoop step a s f).inst (epLoop step a s f).file).inst,
         (epLoop step b (epLoop step a s f).inst (epLoop step a s f).file).file,
         (epLoop step b (epLoop step a s f).inst (epLoop step a s f).file).ok⟩ := by
  intro a
  induction a with
  | zero => intro b s f; simp [epLoop_zero]
  | succ n ih =>
    intro b s f
    by_cases h : s.epoch < s.epochs
    · cases hs : step s with
      | none => exact absurd hs (hsome s)
      | some rs =>
        obtain ⟨r, s2⟩ := rs
        have harith : n + 1 + b = (n + b) + 1 := by omega
        rw [harith, epLoop_succ_go step (n + b) s f r s2 h hs,
          epLoop_succ_go step n s f r s2 h hs, ih b s2 (some s2)]
        simp
    · have harith : n + 1 + b = (n + b) + 1 := by omega
      rw [harith, epLoop_succ_stop step (n + b) s f h, epLoop_succ_stop step n s f h]
      cases b with
      | zero => simp [epLoop_zero]
      | succ m => simp [epLoop_succ_stop step m s f h]

theorem epLoop_loopShape {σ ρ : Type} (step : RunState σ → Option (ρ × RunState σ)) :
    ∀ (fuel : Nat) (s : RunState σ) (f : Option (RunState σ)),
      LoopShape (epLoop step fuel s f).trace := by
  intro fuel
  induction fuel with
  | zero => intro s f; exact LoopShape.nil
  | succ n ih =>
    intro s f
    by_cases h : s.epoch < s.epochs
    · cases hs : step s with
      | none =>
        rw [epLoop_succ_fail step n s f h hs]
        exact LoopShape.fail _
      | some rs =>
        obtain ⟨r, s2⟩ := rs
        rw [epLoop_succ_go step n s f r s2 h hs]
        exact LoopShape.block _ _ _ _ (ih s2 (some s2))
    · rw [epLoop_succ_stop step n s f h]
      exact LoopShape.nil

theorem dfaRun_append {σ ρ : Type} (δ : Nat → Ev σ ρ → Option Nat) :
    ∀ (xs ys : List (Ev σ ρ)) (st : Nat),
      dfaRun δ st (xs ++ ys) = (dfaRun δ st xs).bind fun st2 => dfaRun δ st2 ys := by
  intro xs
  induction xs with
  | nil => intro ys st; simp [dfaRun]
  | cons e xs ih =>
    intro ys st
    simp only [List.cons_append, dfaRun]
    cases δ st e with
    | none => simp
    | some st2 => simpa using ih ys st2

theorem loopShape_c3Actual {σ ρ : Type} {tr : List (Ev σ ρ)} (h : LoopShape tr) :
    dfaRun c3ActualStep 0 tr = some 0 ∨ dfaRun c3ActualStep 0 tr = some 1 := by
  induction h with
  | nil => exact Or.inl rfl
  | fail k => exact Or.inr rfl
  | block k r s tr htr ih => simpa [dfaRun, c3ActualStep] using ih

theorem loopShape_runNeedsLoad {σ ρ : Type} {tr : List (Ev σ ρ)} (h : LoopShape tr) :
    dfaRun runNeedsLoadStep 1 tr = some 0 ∨ dfaRun runNeedsLoadStep 1 tr = some 1 := by
  induction h with
  | nil => exact Or.inr rfl
  | fail k => exact Or.inl rfl
  | block k r s tr htr ih => simpa [dfaRun, runNeedsLoadStep] using ih

theorem loopShape_noConstruct {σ ρ : Type} {tr : List (Ev σ ρ)} (h : LoopShape tr) :
    tr.countP isConstructEv = 0 := by
  induction h with
  | nil => rfl
  | fail k => rfl
  | block k r s tr htr ih => simpa [List.countP_cons, isConstructEv] using ih

theorem loopShape_noRemove {σ ρ : Type} {tr : List (Ev σ ρ)} (h : LoopShape tr) :
    tr.countP isRemoveEv = 0 := by
  induction h with
  | nil => rfl
  | fail k => rfl
  | block k r s tr htr ih => simpa [List.countP_cons, isRemoveEv] using ih

theorem loopShape_dumpsReloaded {σ ρ : Type} [DecidableEq σ] {tr : List (Ev σ ρ)}
    (h : LoopShape tr) :
    ∀ ys : List (Ev σ ρ), dumpsReloaded ys = true → dumpsReloaded (tr ++ ys) = true := by
  induction h with
  | nil => intro ys hys; simpa using hys
  | fail k => intro ys hys; simpa [dumpsReloaded] using hys
  | block k r s tr htr ih =>
    intro ys hys
    simpa [dumpsReloaded] using ih ys hys

/-! ## Projection equations for iterateEpisodes -/

theorem iterate_none_def {σ ρ : Type} (step : RunState σ → Option (ρ × RunState σ))
    (fresh : RunState σ) (sup : Option (List Char)) (tmp : List Char) :
    iterateEpisodes step fresh sup tmp none =
      { trace := [Ev.construct fresh, Ev.dump fresh, Ev.load fresh]
          ++ (epLoop step (fresh.epochs - fresh.epoch) fresh (some fresh)).trace
          ++ (if strEndsWith (sup.getD tmp) removeSuffix
                && (epLoop step (fresh.epochs - fresh.epoch) fresh (some fresh)).file.isSome
              then [Ev.removeFile] else [])
        yields := (epLoop step (fresh.epochs - fresh.epoch) fresh (some fresh)).yields
        loopFile := (epLoop step (fresh.epochs - fresh.epoch) fresh (some fresh)).file
        file := if strEndsWith (sup.getD tmp) removeSuffix
                && (epLoop step (fresh.epochs - fresh.epoch) fresh (some fresh)).file.isSome
            then none
            else (epLoop step (fresh.epochs - fresh.epoch) fresh (some fresh)).file
        ok := (epLoop step (fresh.epochs - fresh.epoch) fresh (some fresh)).ok } := rfl

theorem iterate_some_def {σ ρ : Type} (step : RunState σ → Option (ρ × RunState σ))
    (fresh : RunState σ) (sup : Option (List Char)) (tmp : List Char) (s : RunState σ) :
    iterateEpisodes step fresh sup tmp (some s) =
      { trace := [Ev.load s]
          ++ (epLoop step (s.epochs - s.epoch) s (some s)).trace
          ++ (if strEndsWith (sup.getD tmp) removeSuffix
                && (epLoop step (s.epochs - s.epoch) s (some s)).file.isSome
              then [Ev.removeFile] else [])
        yields := (epLoop step (s.epochs - s.epoch) s (some s)).yields
        loopFile := (epLoop step (s.epochs - s.epoch) s (some s)).file
        file := if strEndsWith (sup.getD tmp) removeSuffix
                && (epLoop step (s.epochs - s.epoch) s (some s)).file.isSome
            then none
            else (epLoop step (s.epochs - s.epoch) s (some s)).file
        ok := (epLoop step (s.epochs - s.epoch) s (some s)).ok } := rfl

/-! ## Auxiliary arithmetic lemmas -/

theorem ema_alt (α : ℚ) (t : List ℚ) :
    ∀ m : List ℚ,
      ema α t m = List.zipWith (fun tp mp => (1 - α) * tp + α * mp) t m := by
  induction t with
  | nil => intro m; simp [ema]
  | cons a t ih =>
    intro m
    cases m with
    | nil => simp [ema]
    | cons b m =>
      simp only [ema, List.zipWith_cons_cons] at ih ⊢
      rw [show a + α * (b - a) = (1 - α) * a + α * b by ring]
      exact congrArg _ (ih m)

theorem flatten_length_const {k : Nat} :
    ∀ L : List (List ℚ), (∀ a ∈ L, a.length = k) →
      L.flatten.length = L.length * k := by
  intro L
  induction L with
  | nil => intro _; simp
  | cons a L ih =>
    intro h
    have ha : a.length = k := h a (by simp)
    have hL : ∀ b ∈ L, b.length = k := fun b hb => h b (by simp [hb])
    simp [List.flatten_cons, ha, ih hL, Nat.succ_mul, Nat.add_comm]

/-! ## Claim theorems -/

/-- C1: the training-cadence claim asserts that one `act(train=True)` call
performs `floor((len(memory) - start_training) * training_steps) -
total_updates_before` invocations of `train()` and that no integer
boundary is executed twice across calls.  Evaluating the embedded code of
src/agents/rrtac.py lines 41-46 on the concrete agent state
`memLen = 0, capacity = 10^6, start_training = 0, training_steps = 1,
total_updates = 0` shows the loop `range(self.total_updates,
int(total_updates_target) + 1)` performs 2 train calls where the claimed
count is 1, and the immediately following step performs 2 more (again
claimed 1): the boundary index equal to the previous `total_updates` is
re-executed at every call. -/
theorem C1_cadence_eval :
    (act (fun (h : Unit) (_o : Unit) => ((), h)) ⟨0, 1000000, 0, 1, 0⟩ () () true).2.2.1.length = 2
    ∧ claimedTrainCalls ⟨0, 1000000, 0, 1, 0⟩ = 1
    ∧ (act (fun (h : Unit) (_o : Unit) => ((), h))
        (act (fun (h : Unit) (_o : Unit) => ((), h)) ⟨0, 1000000, 0, 1, 0⟩ () () true).2.2.2
        () () true).2.2.1.length = 2
    ∧ claimedTrainCalls
        (act (fun (h : Unit) (_o : Unit) => ((), h)) ⟨0, 1000000, 0, 1, 0⟩ () () true).2.2.2 = 1 := by
  refine ⟨?_, ?_, ?_, ?_⟩ <;>
    norm_num [act, claimedTrainCalls, pyInt, totalUpdatesTarget, memAppendLen] <;> rfl

/-- C7: with `train=False`, `Agent.act` (src/agents/rrtac.py lines 37-46)
is pure inference: the memory is untouched (no append, length unchanged),
`train()` is invoked zero times, `total_updates` is unchanged, and the
call returns exactly the model's action, the next recurrent state and an
empty statistics list. -/
theorem C7_act_inference_pure {H Obs Act : Type} (modelAct : H → Obs → Act × H)
    (a : AgentSt) (h : H) (obs : Obs) :
    act modelAct a h obs false = ((modelAct h obs).1, (modelAct h obs).2, [], a) := rfl

/-- Witness for C7 at a concrete agent state and model. -/
theorem C7_witness :
    act (fun (x : Nat) (y : Nat) => (x + y, x * y)) ⟨5, 10, 2, 1, 3⟩ 4 6 false
      = (10, 24, [], ⟨5, 10, 2, 1, 3⟩) :=
  C7_act_inference_pure (fun x y => (x + y, x * y)) ⟨5, 10, 2, 1, 3⟩ 4 6

/-- C8: in every `train()` call (src/agents/rrtac.py lines 48-100) the
target-model parameters are changed only by the exponential-moving-average
rule with coefficient `target_update`, applied exactly once, after the
optimizer step, to the post-step model parameters — never by
backpropagation or the optimizer (the gradient step consumes only the
trainable model parameters); the same EMA rule is applied to the
output-normalization target module at the same point.  The event list
records the update order of lines 83-90. -/
theorem C8_target_ema (g u : List ℚ → List ℚ) (α : ℚ) (s : NetSt) :
    (trainStep g u α s).1.targetP = ema α s.targetP (g s.modelP)
    ∧ (trainStep g u α s).1.targetP
        = List.zipWith (fun tp mp => (1 - α) * tp + α * mp) s.targetP (g s.modelP)
    ∧ (trainStep g u α s).1.onTargetP = ema α s.onTargetP (u s.onP)
    ∧ (trainStep g u α s).2
        = [TrainEv.zeroGrad, TrainEv.backward, TrainEv.optStep,
           TrainEv.emaModelTarget, TrainEv.emaOutputnormTarget] := by
  exact ⟨rfl, ema_alt α s.targetP (g s.modelP), rfl, rfl⟩

/-- Witness for C8 at concrete parameter vectors and updates. -/
theorem C8_witness :
    (trainStep (fun l => l.map (· + 1)) (fun l => l.map (· * 2)) (1/2)
        ⟨[1, 2], [3, 4], [5], [6]⟩).1.targetP
      = ema (1/2) [3, 4] ((fun l : List ℚ => l.map (· + 1)) [1, 2])
    ∧ (trainStep (fun l => l.map (· + 1)) (fun l => l.map (· * 2)) (1/2)
        ⟨[1, 2], [3, 4], [5], [6]⟩).1.targetP
      = List.zipWith (fun tp mp => (1 - (1/2 : ℚ)) * tp + (1/2) * mp) [3, 4]
          ((fun l : List ℚ => l.map (· + 1)) [1, 2])
    ∧ (trainStep (fun l => l.map (· + 1)) (fun l => l.map (· * 2)) (1/2)
        ⟨[1, 2], [3, 4], [5], [6]⟩).1.onTargetP
      = ema (1/2) [6] ((fun l : List ℚ => l.map (· * 2)) [5])
    ∧ (trainStep (fun l => l.map (· + 1)) (fun l => l.map (· * 2)) (1/2)
        ⟨[1, 2], [3, 4], [5], [6]⟩).2
      = [TrainEv.zeroGrad, TrainEv.backward, TrainEv.optStep,
         TrainEv.emaModelTarget, TrainEv.emaOutputnormTarget] :=
  C8_target_ema (fun l => l.map (· + 1)) (fun l => l.map (· * 2)) (1/2)
    ⟨[1, 2], [3, 4], [5], [6]⟩

/-- C10: in `run_wandb` (src/agents/__init__.py line 76), a zero (falsy)
seed is replaced in the logged config by the value drawn by
`randrange(1, 1000000)` — hence the logged seed then lies in
`[1, 1000000)` — while any nonzero seed is logged unchanged. -/
theorem C10_wandb_seed (seed draw : Int) (hd : randrangeSpec 1 1000000 draw) :
    (seed = 0 → wandbSeed seed draw = draw
        ∧ randrangeSpec 1 1000000 (wandbSeed seed draw))
    ∧ (seed ≠ 0 → wandbSeed seed draw = seed) := by
  constructor
  · intro h
    subst h
    exact ⟨rfl, by simpa [wandbSeed] using hd⟩
  · intro h
    simp [wandbSeed, h]

/-- C9: for every combination of the four flags and every input conforming
to the documented observation-space layout (observation of width
`obs_dim`, an action buffer of `buf_size` actions of width `act_dim`, delay
indices in `[0, buf_size)`, appended action of width `act_dim`), the
feature vector assembled by `DelayedMlpModule.forward`
(src/rlrd/sac_models_rd.py lines 70-113) has exactly the `in_features`
width chosen by `__init__` (lines 51-68) and every `scatter_` write is in
bounds, so the forward pass completes without a shape or index error. -/
theorem C9_forward_shape (c : DmmCfg) (obs : List ℚ) (actBuf : List (List ℚ))
    (obsDel actDel : Nat) (action : List ℚ)
    (hobs : obs.length = c.obs_dim)
    (hbuf : actBuf.length = c.buf_size)
    (hact : ∀ a ∈ actBuf, a.length = c.act_dim)
    (ha : action.length = c.act_dim)
    (hod : obsDel < c.buf_size)
    (had : actDel < c.buf_size) :
    (dmmForward c obs actBuf obsDel actDel action).isSome = true := by
  obtain ⟨od, ad, bs, q, obd, acd, tb⟩ := c
  have hne : actBuf.isEmpty = false := by
    cases actBuf with
    | nil => simp at hbuf; simp at hod; omega
    | cons x xs => rfl
  have hflat : actBuf.flatten.length = bs * ad := by
    rw [flatten_length_const actBuf hact, hbuf]
  cases q <;> cases obd <;> cases acd <;> cases tb <;>
    simp [dmmForward, linInFeatures, scatterOneHot, hne, hod, had,
      hobs, ha, hflat] <;> ring

/-- Witness for C9: a Q-network configuration with both delay flags, a
width-2 observation, three width-1 buffered actions, and in-range delay
indices. -/
theorem C9_witness :
    (dmmForward ⟨2, 1, 3, true, true, true, false⟩ [0, 0] [[5], [6], [7]]
        1 2 [9]).isSome = true :=
  C9_forward_shape ⟨2, 1, 3, true, true, true, false⟩ [0, 0] [[5], [6], [7]]
    1 2 [9] rfl rfl (by intro a ha; fin_cases ha <;> rfl) rfl
    (by norm_num) (by norm_num)

/-- Witness for C10 at seed 0 with draw 7, and at seed 5. -/
theorem C10_witness :
    ((0 : Int) = 0 → wandbSeed 0 7 = 7 ∧ randrangeSpec 1 1000000 (wandbSeed 0 7))
    ∧ ((5 : Int) ≠ 0 → wandbSeed 5 7 = 5) :=
  ⟨(C10_wandb_seed 0 7 (by constructor <;> norm_num)).1,
   (C10_wandb_seed 5 7 (by constructor <;> norm_num)).2⟩

/-- C3 counterexample: on a concrete one-epoch run (fresh start, ephemeral
path, `run_epoch` incrementing the epoch and returning the epoch index),
the trace produced by `iterate_episodes` violates the ordering asserted by
the claim — persist, then reload, then yield: line 45 of
src/agents/__init__.py yields the record before line 47 dumps the state. -/
theorem C3_counterexample :
    c3ClaimOk
      (iterateEpisodes stepOk ⟨0, 1, ()⟩ none "t_remove_on_exit".toList none).trace
      = false := by decide

/-- C3 amended: for every epoch, after `run_epoch` completes the epoch's
Statistics Record is first yielded to the caller, and then (when the
caller resumes the generator) the entire Run State is persisted to the
checkpoint path and the in-memory Run State is discarded and reconstructed
by deserializing the just-written checkpoint — every `dump` event is
immediately followed by a `load` of the identical state. -/
theorem C3_run_yield_persist_reload {σ ρ : Type} [DecidableEq σ]
    (step : RunState σ → Option (ρ × RunState σ)) (fresh : RunState σ)
    (sup : Option (List Char)) (tmp : List Char) (file0 : Option (RunState σ)) :
    c3ActualOk (iterateEpisodes step fresh sup tmp file0).trace = true
    ∧ dumpsReloaded (iterateEpisodes step fresh sup tmp file0).trace = true := by
  cases file0 with
  | none =>
    have hshape := epLoop_loopShape step (fresh.epochs - fresh.epoch) fresh (some fresh)
    have htail : dumpsReloaded
        (if strEndsWith (sup.getD tmp) removeSuffix
            && (epLoop step (fresh.epochs - fresh.epoch) fresh (some fresh)).file.isSome
         then ([Ev.removeFile] : List (Ev σ ρ)) else []) = true := by
      split <;> rfl
    constructor
    · unfold c3ActualOk
      rw [iterate_none_def]
      simp only [dfaRun_append]
      have h0 : dfaRun c3ActualStep 0
          [Ev.construct fresh, Ev.dump fresh, Ev.load (ρ := ρ) fresh] = some 0 := rfl
      rw [h0]
      rcases loopShape_c3Actual hshape with h1 | h1 <;> split <;>
        simp [h1, dfaRun, c3ActualStep]
    · rw [iterate_none_def]
      simp only [List.cons_append, List.nil_append, List.append_assoc]
      simp only [dumpsReloaded, decide_True, Bool.true_and]
      exact loopShape_dumpsReloaded hshape _ htail
  | some s =>
    have hshape := epLoop_loopShape step (s.epochs - s.epoch) s (some s)
    have htail : dumpsReloaded
        (if strEndsWith (sup.getD tmp) removeSuffix
            && (epLoop step (s.epochs - s.epoch) s (some s)).file.isSome
         then ([Ev.removeFile] : List (Ev σ ρ)) else []) = true := by
      split <;> rfl
    constructor
    · unfold c3ActualOk
      rw [iterate_some_def]
      simp only [dfaRun_append]
      have h0 : dfaRun c3ActualStep 0 [Ev.load (ρ := ρ) s] = some 0 := rfl
      rw [h0]
      rcases loopShape_c3Actual hshape with h1 | h1 <;> split <;>
        simp [h1, dfaRun, c3ActualStep]
    · rw [iterate_some_def]
      simp only [List.cons_append, List.nil_append, List.append_assoc]
      simp only [dumpsReloaded]
      exact loopShape_dumpsReloaded hshape _ htail

/-- Witness for C3's amended ordering on the concrete one-epoch run. -/
theorem C3_witness :
    c3ActualOk
      (iterateEpisodes stepOk ⟨0, 1, ()⟩ none "t_remove_on_exit".toList none).trace = true
    ∧ dumpsReloaded
      (iterateEpisodes stepOk ⟨0, 1, ()⟩ none "t_remove_on_exit".toList none).trace = true :=
  C3_run_yield_persist_reload stepOk ⟨0, 1, ()⟩ none "t_remove_on_exit".toList none

/-- C4 counterexample: the claim states every explicitly supplied
checkpoint path is preserved on exit; but the `finally` clause of
src/agents/__init__.py (line 55) keys deletion on the path suffix, so the
explicitly supplied path `"ckpt_remove_on_exit"` has its checkpoint file
(present at loop exit, holding the epoch-1 state) deleted on exit. -/
theorem C4_counterexample :
    (iterateEpisodes stepOk ⟨0, 1, ()⟩ (some "ckpt_remove_on_exit".toList)
        "t_remove_on_exit".toList none).loopFile = some ⟨1, 1, ()⟩
    ∧ (iterateEpisodes stepOk ⟨0, 1, ()⟩ (some "ckpt_remove_on_exit".toList)
        "t_remove_on_exit".toList none).file = none := by decide

/-- C4 amended: when `checkpoint_path` is `None`, the auto-generated
`mktemp("_remove_on_exit")` path always ends with the cleanup suffix and
the checkpoint file at it is deleted on loop exit on every exit path
(normal completion or exception, i.e. for every `step`, including failing
ones, and any prior file content); an explicitly supplied path is
preserved for future resumption (file content left exactly as at loop
exit, no remove event) provided it does not end with the suffix
`"_remove_on_exit"`, on which the cleanup test is keyed. -/
theorem C4_cleanup_scoped {σ ρ : Type}
    (step : RunState σ → Option (ρ × RunState σ)) (fresh : RunState σ)
    (tmp p : List Char) (file0 : Option (RunState σ))
    (htmp : strEndsWith tmp removeSuffix = true)
    (hp : strEndsWith p removeSuffix = false) :
    (iterateEpisodes step fresh none tmp file0).file = none
    ∧ (iterateEpisodes (ρ := ρ) step fresh (some p) tmp file0).file
        = (iterateEpisodes step fresh (some p) tmp file0).loopFile
    ∧ (iterateEpisodes step fresh (some p) tmp file0).trace.countP isRemoveEv = 0 := by
  refine ⟨?_, ?_, ?_⟩
  · cases file0 with
    | none =>
      have hf := epLoop_file_isSome step (fresh.epochs - fresh.epoch) fresh (some fresh) rfl
      rw [iterate_none_def]
      simp [htmp, hf]
    | some s =>
      have hf := epLoop_file_isSome step (s.epochs - s.epoch) s (some s) rfl
      rw [iterate_some_def]
      simp [htmp, hf]
  · cases file0 with
    | none => rw [iterate_none_def]; simp [hp]
    | some s => rw [iterate_some_def]; simp [hp]
  · cases file0 with
    | none =>
      have hshape := epLoop_loopShape step (fresh.epochs - fresh.epoch) fresh (some fresh)
      rw [iterate_none_def]
      simp [hp, List.countP_append, List.countP_cons, isRemoveEv,
        loopShape_noRemove hshape]
    | some s =>
      have hshape := epLoop_loopShape step (s.epochs - s.epoch) s (some s)
      rw [iterate_some_def]
      simp [hp, List.countP_append, List.countP_cons, isRemoveEv,
        loopShape_noRemove hshape]

/-- Witness for C4's amended cleanup contract: an ephemeral run deletes
the mktemp file, an explicit path without the suffix is preserved. -/
theorem C4_witness :
    (iterateEpisodes stepOk ⟨0, 2, ()⟩ none "t_remove_on_exit".toList none).file = none
    ∧ (iterateEpisodes stepOk ⟨0, 2, ()⟩ (some "ckpt".toList)
        "t_remove_on_exit".toList none).file
      = (iterateEpisodes stepOk ⟨0, 2, ()⟩ (some "ckpt".toList)
        "t_remove_on_exit".toList none).loopFile
    ∧ (iterateEpisodes stepOk ⟨0, 2, ()⟩ (some "ckpt".toList)
        "t_remove_on_exit".toList none).trace.countP isRemoveEv = 0 :=
  C4_cleanup_scoped stepOk ⟨0, 2, ()⟩ "t_remove_on_exit".toList "ckpt".toList none
    (by decide) (by decide)

/-- C5: when the loaded Run State has counters `epoch = k`, `epochs = E`
and `run_epoch` increments `epoch` by one (and never raises),
`iterate_episodes` yields exactly `E - k` Statistics Records and
terminates; in particular a fresh run with `epochs = 3` and no checkpoint
path given yields exactly 3 records and leaves no ephemeral checkpoint
file behind. -/
theorem C5_yield_count {σ ρ : Type}
    (step : RunState σ → Option (ρ × RunState σ))
    (hsome : ∀ s, step s ≠ none)
    (hstep : ∀ s r s2, step s = some (r, s2) → s2.epoch = s.epoch + 1 ∧ s2.epochs = s.epochs)
    (fresh s : RunState σ) (sup : Option (List Char)) (tmp : List Char)
    (htmp : strEndsWith tmp removeSuffix = true) :
    ((iterateEpisodes step fresh sup tmp (some s)).yields.length = s.epochs - s.epoch
      ∧ (iterateEpisodes step fresh sup tmp (some s)).ok = true)
    ∧ (fresh.epoch = 0 → fresh.epochs = 3 →
        (iterateEpisodes step fresh none tmp none).yields.length = 3
        ∧ (iterateEpisodes step fresh none tmp none).file = none) := by
  constructor
  · by_cases hle : s.epoch ≤ s.epochs
    · obtain ⟨hl, _, _, hok⟩ :=
        epLoop_exact step hsome hstep (s.epochs - s.epoch) s (some s) (by omega)
      rw [iterate_some_def]
      exact ⟨hl, hok⟩
    · have hfuel : s.epochs - s.epoch = 0 := by omega
      rw [iterate_some_def]
      simp [hfuel, epLoop_zero]
  · intro h0 h3
    have hfuel : fresh.epochs - fresh.epoch = 3 := by omega
    obtain ⟨hl, _, _, _⟩ :=
      epLoop_exact step hsome hstep (fresh.epochs - fresh.epoch) fresh (some fresh)
        (by omega)
    have hf := epLoop_file_isSome step (fresh.epochs - fresh.epoch) fresh (some fresh) rfl
    constructor
    · rw [iterate_none_def]
      simpa [hfuel] using hl
    · rw [iterate_none_def]
      simp [htmp, hf]

/-- Witness for C5: a three-epoch run from a loaded state at epoch 1 (two
records) and a fresh ephemeral three-epoch run (three records, no file
left). -/
theorem C5_witness :
    ((iterateEpisodes stepOk ⟨0, 3, ()⟩ (some "ckpt".toList) "t_remove_on_exit".toList
        (some ⟨1, 3, ()⟩)).yields.length = 3 - 1
      ∧ (iterateEpisodes stepOk ⟨0, 3, ()⟩ (some "ckpt".toList) "t_remove_on_exit".toList
        (some ⟨1, 3, ()⟩)).ok = true)
    ∧ ((⟨0, 3, ()⟩ : RunState Unit).epoch = 0 → (⟨0, 3, ()⟩ : RunState Unit).epochs = 3 →
        (iterateEpisodes stepOk ⟨0, 3, ()⟩ none "t_remove_on_exit".toList none).yields.length = 3
        ∧ (iterateEpisodes stepOk ⟨0, 3, ()⟩ none "t_remove_on_exit".toList none).file = none) :=
  C5_yield_count stepOk (fun s => by simp [stepOk])
    (fun s r s2 h => by
      simp only [stepOk, Option.some.injEq, Prod.mk.injEq] at h
      obtain ⟨h1, h2⟩ := h
      rw [← h2]
      exact ⟨rfl, rfl⟩)
    ⟨0, 3, ()⟩ ⟨1, 3, ()⟩ (some "ckpt".toList) "t_remove_on_exit".toList (by decide)

/-- C6: when no file exists at the checkpoint path, a fresh Run State is
constructed by `run_cls()` and persisted immediately, before any epoch
runs (the trace begins `construct; dump; load`); when a file exists,
`run_cls` is never invoked (no `construct` event); and in both cases every
`run_epoch` call executes on an instance just deserialized from the
checkpoint (every `runEpoch` event is immediately preceded by a `load`
event), never on the freshly constructed in-memory instance. -/
theorem C6_create_or_resume {σ ρ : Type}
    (step : RunState σ → Option (ρ × RunState σ)) (fresh : RunState σ)
    (sup : Option (List Char)) (tmp : List Char) (file0 : Option (RunState σ))
    (s : RunState σ) :
    (iterateEpisodes (ρ := ρ) step fresh sup tmp none).trace.take 3
        = [Ev.construct fresh, Ev.dump fresh, Ev.load fresh]
    ∧ (iterateEpisodes (ρ := ρ) step fresh sup tmp (some s)).trace.countP isConstructEv = 0
    ∧ (dfaRun runNeedsLoadStep 0 (iterateEpisodes step fresh sup tmp file0).trace).isSome
        = true := by
  refine ⟨rfl, ?_, ?_⟩
  · have hshape := epLoop_loopShape step (s.epochs - s.epoch) s (some s)
    rw [iterate_some_def]
    simp only [List.cons_append, List.nil_append, List.countP_cons, List.countP_append,
      loopShape_noConstruct hshape, isConstructEv]
    split <;> rfl
  · cases file0 with
    | none =>
      have hshape := epLoop_loopShape step (fresh.epochs - fresh.epoch) fresh (some fresh)
      rw [iterate_none_def]
      simp only [dfaRun_append]
      have h0 : dfaRun runNeedsLoadStep 0
          [Ev.construct fresh, Ev.dump fresh, Ev.load (ρ := ρ) fresh] = some 1 := rfl
      rw [h0]
      rcases loopShape_runNeedsLoad hshape with h1 | h1 <;> split <;>
        simp [h1, dfaRun, runNeedsLoadStep]
    | some t =>
      have hshape := epLoop_loopShape step (t.epochs - t.epoch) t (some t)
      rw [iterate_some_def]
      simp only [dfaRun_append]
      have h0 : dfaRun runNeedsLoadStep 0 [Ev.load (ρ := ρ) t] = some 1 := rfl
      rw [h0]
      rcases loopShape_runNeedsLoad hshape with h1 | h1 <;> split <;>
        simp [h1, dfaRun, runNeedsLoadStep]

/-- Witness for C6 on concrete fresh and resumed two-epoch runs. -/
theorem C6_witness :
    (iterateEpisodes stepOk ⟨0, 2, ()⟩ none "t_remove_on_exit".toList none).trace.take 3
        = [Ev.construct ⟨0, 2, ()⟩, Ev.dump ⟨0, 2, ()⟩, Ev.load ⟨0, 2, ()⟩]
    ∧ (iterateEpisodes stepOk ⟨0, 2, ()⟩ none "t_remove_on_exit".toList
        (some ⟨1, 2, ()⟩)).trace.countP isConstructEv = 0
    ∧ (dfaRun runNeedsLoadStep 0
        (iterateEpisodes stepOk ⟨0, 2, ()⟩ none "t_remove_on_exit".toList
          (some ⟨1, 2, ()⟩)).trace).isSome = true :=
  C6_create_or_resume stepOk ⟨0, 2, ()⟩ none "t_remove_on_exit".toList
    (some ⟨1, 2, ()⟩) ⟨1, 2, ()⟩

/-- C2: with a deterministic `run_epoch` that increments the epoch counter
and never raises (the same "random seed stream" yields the same step
function), running all `N` epochs uninterrupted through
`iterate_episodes` produces the same sequence of per-epoch Statistics
Records as running epochs `1..k`, stopping after the `k`-th checkpoint
write, restarting the process on the checkpoint left on disk, and running
the remaining epochs: checkpoint/restore is a no-op for future
behaviour. -/
theorem C2_checkpoint_restart_noop {σ ρ : Type}
    (step : RunState σ → Option (ρ × RunState σ))
    (hsome : ∀ s, step s ≠ none)
    (hstep : ∀ s r s2, step s = some (r, s2) → s2.epoch = s.epoch + 1 ∧ s2.epochs = s.epochs)
    (N k : Nat) (hk : k ≤ N) (fresh : RunState σ)
    (he : fresh.epoch = 0) (hE : fresh.epochs = N)
    (sup sup2 : Option (List Char)) (tmp tmp2 : List Char) :
    (iterateEpisodes step fresh sup tmp none).yields
      = (iterateStopAfter step fresh k).1
        ++ (iterateEpisodes step fresh sup2 tmp2 (iterateStopAfter step fresh k).2).yields := by
  obtain ⟨hl, hiek, hieE, hok⟩ :=
    epLoop_exact step hsome hstep k fresh (some fresh) (by omega)
  have hstop2 : (iterateStopAfter (ρ := ρ) step fresh k).2
      = some (epLoop step k fresh (some fresh)).inst :=
    epLoop_file_inst step hsome k fresh
  have hstop1 : (iterateStopAfter (ρ := ρ) step fresh k).1
      = (epLoop step k fresh (some fresh)).yields := rfl
  rw [hstop1, hstop2, iterate_some_def, iterate_none_def]
  dsimp only
  rw [hiek, hieE, he, hE]
  have hN : N - 0 = k + (N - k) := by omega
  rw [hN, epLoop_add step hsome k (N - k) fresh (some fresh)]
  dsimp only
  rw [epLoop_file_inst step hsome k fresh]
  simp

/-- Witness for C2: a three-epoch run interrupted after the first
checkpoint write and resumed, compared with the uninterrupted run. -/
theorem C2_witness :
    (iterateEpisodes stepOk ⟨0, 3, ()⟩ (some "ckpt".toList)
        "t_remove_on_exit".toList none).yields
      = (iterateStopAfter stepOk ⟨0, 3, ()⟩ 1).1
        ++ (iterateEpisodes stepOk ⟨0, 3, ()⟩ (some "ckpt".toList)
            "t_remove_on_exit".toList (iterateStopAfter stepOk ⟨0, 3, ()⟩ 1).2).yields :=
  C2_checkpoint_restart_noop stepOk (fun s => by simp [stepOk])
    (fun s r s2 h => by
      simp only [stepOk, Option.some.injEq, Prod.mk.injEq] at h
      obtain ⟨h1, h2⟩ := h
      rw [← h2]
      exact ⟨rfl, rfl⟩)
    3 1 (by norm_num) ⟨0, 3, ()⟩ rfl rfl
    (some "ckpt".toList) (some "ckpt".toList)
    "t_remove_on_exit".toList "t_remove_on_exit".toList

end Rlrd
